import Mathlib

/-!
# Verification of the `rua` parser (`src/parse.rs`)

A shallow embedding of the recursive-descent parser in `src/parse.rs` of the
`rua` repository, together with theorems settling the specification claims.

Modelling decisions:

* The token stream is a `List Token`; indices are `Nat`.
* Rust's `Option<(T, usize)>` results become the `PR` type below, which also
  records two effects of the Rust code: the diagnostics it prints with
  `println!` (threaded as a `List String`, in print order), and the
  possibility of a Rust panic from an out-of-bounds `tokens[i]` access
  (`PR.panic`).  Several diagnostic sites in `parse.rs` index
  `tokens[next_index]` at a position that can be past the end of the stream,
  which panics in Rust; the embedding makes those panics explicit.
* The mutually recursive parsing functions take an explicit `fuel` argument
  (structural recursion); every nested call uses one unit of fuel.  All
  universally quantified theorems below hold for every fuel.  The top-level
  `parse` gives its loop `tokens.length + 1` fuel, which provably never
  runs out (every successful dispatch consumes at least one token, see
  `progress_all`), and gives the dispatcher a linear budget `innerFuel`
  that dominates any call chain over the stream.
* `lex.rs` is not part of the reviewed sources, so `Token`, `TokenKind` and
  `Location.debug` are modelled from the spec (see their doc comments), as
  are the statement parsers `parse_if`, `parse_return`, `parse_function` and
  `parse_local`, which `parse.rs` references but does not define.
-/

/-- Token kinds, as used by `parse.rs` (`TokenKind` in `lex.rs`):
Keyword, Syntax, Identifier, Number, Operator. -/
inductive TokenKind where
  | Keyword
  | Syntax
  | Identifier
  | Number
  | Operator
deriving Repr, DecidableEq

/-- Modelled from the spec: the lexer's source position type is not under
`src/`; the spec only requires "a position capable of producing a formatted
diagnostic string given the original source buffer and a message". -/
structure Location where
  line : Nat
  col : Nat
deriving Repr, DecidableEq

/-- Modelled from the spec: `Location::debug` of `lex.rs` is not under
`src/`; the spec requires a "human-readable, source-located message string"
but fixes no format, so the model combines the message with the position and
ignores the raw source buffer. -/
def Location.debug (loc : Location) (_raw : List Char) (msg : String) : String :=
  msg ++ " at line " ++ toString loc.line ++ ", column " ++ toString loc.col

/-- A lexical token (`Token` in `lex.rs`, modelled from the spec): a `kind`,
the matched source text `value`, and a source position `loc`. -/
structure Token where
  kind : TokenKind
  value : String
  loc : Location
deriving Repr, DecidableEq

/-- `Literal` of `parse.rs`: wraps an Identifier token or a Number token. -/
inductive Literal where
  | Identifier : Token → Literal
  | Number : Token → Literal
deriving Repr, DecidableEq

/-- `Expression` of `parse.rs`.  The Rust code uses the structs
`FunctionCall {name, arguments}` and `BinaryOperation {operator, left, right}`;
here they are constructors with the fields in that order. -/
inductive Expression where
  | FunctionCall : Token → List Expression → Expression
  | BinaryOperation : Token → Expression → Expression → Expression
  | Literal : Literal → Expression
deriving Repr

/-- `Statement` of `parse.rs`.  `If {test, body}`,
`FunctionDeclaration {name, parameters, body}`, `Return {expression}` and
`Local {name, expression}` become constructors with fields in that order. -/
inductive Statement where
  | Expression : Expression → Statement
  | If : Expression → List Statement → Statement
  | FunctionDeclaration : Token → List Token → List Statement → Statement
  | Return : Expression → Statement
  | Local : Token → Expression → Statement
deriving Repr

/-- `pub type Ast = Vec<Statement>` of `parse.rs`. -/
abbrev Ast := List Statement

/-- The result of a Rust parsing function of `parse.rs`, with its effects
made explicit.  `out` is the list of diagnostics printed by `println!`, in
print order.  `panic` is a Rust panic (an out-of-bounds `tokens[i]`), which
aborts the whole process; the diagnostics printed before the panic are kept. -/
inductive PR (α : Type) where
  | panic : List String → PR α
  | none : List String → PR α
  | some : List String → α → PR α
deriving Repr, DecidableEq

/-- Prepend already-printed output to a result's output. -/
def PR.withOut (out : List String) : PR α → PR α
  | .panic o => .panic (out ++ o)
  | .none o => .none (out ++ o)
  | .some o a => .some (out ++ o) a

/-- Sequencing of trial parsers as in `parse_statement`'s loop: keep a panic
or a success, on no-match try the next alternative (printed output
accumulates across alternatives, as it does on `stdout` in Rust). -/
def PR.orElse (a : PR α) (b : Unit → PR α) : PR α :=
  match a with
  | .panic o => .panic o
  | .some o r => .some o r
  | .none o => PR.withOut o (b ())

/-- `expect_keyword` of `parse.rs` (lines 64-71): the token at `index`
exists, is a Keyword and has the expected value.  Out of range is `false`. -/
def expect_keyword (tokens : List Token) (index : Nat) (value : String) : Bool :=
  if h : index < tokens.length then
    let t := tokens[index]
    t.kind == TokenKind.Keyword && t.value == value
  else false

/-- `expect_syntax` of `parse.rs` (lines 73-80): the token at `index`
exists, is Syntax and has the expected value.  Out of range is `false`. -/
def expect_syntax (tokens : List Token) (index : Nat) (value : String) : Bool :=
  if h : index < tokens.length then
    let t := tokens[index]
    t.kind == TokenKind.Syntax && t.value == value
  else false

/-- `expect_identifier` of `parse.rs` (lines 82-89): the token at `index`
exists and is an Identifier.  Out of range is `false`. -/
def expect_identifier (tokens : List Token) (index : Nat) : Bool :=
  if h : index < tokens.length then
    let t := tokens[index]
    t.kind == TokenKind.Identifier
  else false

/-- The diagnostic messages printed by `parse.rs`. -/
def semicolonMsg : String := "Expected semicolon after expression:"

def commaMsg : String := "Expected comma between function call arguments:"

def argExprMsg : String := "Expected valid expression in function call arguments:"

def rhsMsg : String := "Expected valid right hand side binary operand:"

def invalidTokenMsg : String := "Invalid token while parsing:"

mutual

/-- `parse_expression` of `parse.rs` (lines 147-251).  The token at `index`
must be a Number or Identifier (otherwise no match); an open paren after it
starts a function call whose argument loop is `parse_args`; an Operator
after it starts a one-level binary operation whose right-hand side must be a
Number or Identifier literal; otherwise the literal alone is returned.  The
Rust code indexes `tokens[next_index]` for the right-hand-side diagnostic
even when `next_index` is past the end of the stream, a panic. -/
def parse_expression (fuel : Nat) (raw : List Char) (tokens : List Token) (index : Nat) :
    PR (Expression × Nat) :=
  match fuel with
  | 0 => .none []
  | f + 1 =>
    match tokens[index]? with
    | Option.none => .none []
    | Option.some t =>
      match
        (match t.kind with
        | TokenKind.Number => Option.some (Expression.Literal (Literal.Number t))
        | TokenKind.Identifier => Option.some (Expression.Literal (Literal.Identifier t))
        | _ => Option.none : Option Expression) with
      | Option.none => .none []
      | Option.some left =>
        let next_index := index + 1
        if expect_syntax tokens next_index "(" then
          -- Function call: skip past open paren, run the argument loop.
          match parse_args f raw tokens (next_index + 1) [] with
          | .panic out => .panic out
          | .none out => .none out
          | .some out (arguments, close_index) =>
            -- Skip past closing paren; the call's name is
            -- `tokens[index].clone()`, the token `t`.
            .some out (Expression.FunctionCall t arguments, close_index + 1)
        else
          if hnext : next_index < tokens.length then
            if tokens[next_index].kind == TokenKind.Operator then
              -- Binary operation.
              let op := tokens[next_index]
              let ni := next_index + 1
              match tokens[ni]? with
              | Option.none =>
                -- Rust: `if next_index >= tokens.len()` then prints
                -- `tokens[next_index].loc.debug(...)`: out-of-bounds panic.
                .panic []
              | Option.some rtoken =>
                match rtoken.kind with
                | TokenKind.Number =>
                  .some [] (Expression.BinaryOperation op left (Expression.Literal (Literal.Number rtoken)), ni + 1)
                | TokenKind.Identifier =>
                  .some [] (Expression.BinaryOperation op left (Expression.Literal (Literal.Identifier rtoken)), ni + 1)
                | _ => .none [rtoken.loc.debug raw rhsMsg]
            else .some [] (left, next_index)
          else .some [] (left, next_index)
termination_by structural fuel

/-- The function-call argument loop of `parse_expression` (lines 166-195 of
`parse.rs`): `next_index` starts just past the open paren, `arguments` is
the accumulator.  While the current token is not `)`: when `arguments` is
still empty a comma is required (missing comma: diagnostic and no match);
then one argument expression is parsed.  Returns the argument list and the
index of the closing paren.  The diagnostic sites index
`tokens[next_index]`, a panic when `next_index` is past the end. -/

def parse_args (fuel : Nat) (raw : List Char) (tokens : List Token) (next_index : Nat)
    (arguments : List Expression) : PR (List Expression × Nat) :=
  match fuel with
  | 0 => .none []
  | f + 1 =>
    if expect_syntax tokens next_index ")" then
      .some [] (arguments, next_index)
    else
      match
        (if arguments.isEmpty then
          if expect_syntax tokens next_index "," then
            PR.some [] (next_index + 1)  -- Skip past comma
          else
            match tokens[next_index]? with
            | Option.none => PR.panic []
            | Option.some t => PR.none [t.loc.debug raw commaMsg]
        else PR.some [] next_index : PR Nat) with
      | .panic out => .panic out
      | .none out => .none out
      | .some _ ni =>
        match parse_expression f raw tokens ni with
        | .panic out => .panic out
        | .some out (arg, nni) =>
          PR.withOut out (parse_args f raw tokens nni (arguments ++ [arg]))
        | .none out =>
          match tokens[ni]? with
          | Option.none => .panic out
          | Option.some t => .none (out ++ [t.loc.debug raw argExprMsg])
termination_by structural fuel

/-- `parse_expression_statement` of `parse.rs` (lines 127-144): one
expression, then a required `;`.  The missing-semicolon diagnostic indexes
`tokens[next_index]`, a panic when the expression ended the stream. -/

def parse_expression_statement (fuel : Nat) (raw : List Char) (tokens : List Token)
    (index : Nat) : PR (Statement × Nat) :=
  match fuel with
  | 0 => .none []
  | f + 1 =>
    match parse_expression f raw tokens index with
    | .panic out => .panic out
    | .none out => .none out
    | .some out (expr, next_index) =>
      if expect_syntax tokens next_index ";" then
        .some out (Statement.Expression expr, next_index + 1)
      else
        match tokens[next_index]? with
        | Option.none => .panic out
        | Option.some t => .none (out ++ [t.loc.debug raw semicolonMsg])

/-- Modelled from the spec: `parse_if` is referenced by `parse_statement`
but is not under `src/`.  Spec §4.5: a leading-keyword probe returning
no-match if absent; then a test expression and a body block of statements
terminated by a closing syntax token, aborting with a diagnostic if a
required piece is missing.  The concrete keyword `if` and closing syntax
token `end` are chosen; the spec fixes neither. -/

def parse_if (fuel : Nat) (raw : List Char) (tokens : List Token) (index : Nat) :
    PR (Statement × Nat) :=
  match fuel with
  | 0 => .none []
  | f + 1 =>
    if expect_keyword tokens index "if" then
      match parse_expression f raw tokens (index + 1) with
      | .panic out => .panic out
      | .none out => .none (out ++ ["Expected test expression after if keyword"])
      | .some out (test, ni) =>
        match parse_block f raw tokens ni with
        | .panic out2 => .panic (out ++ out2)
        | .none out2 => .none (out ++ out2)
        | .some out2 (body, nni) => .some (out ++ out2) (Statement.If test body, nni)
    else .none []
termination_by structural fuel

/-- Modelled from the spec: `parse_return` is referenced by
`parse_statement` but is not under `src/`.  Spec §4.5: a leading-keyword
probe returning no-match if absent, then one expression and the statement
terminator, aborting with a diagnostic if a required piece is missing. -/

def parse_return (fuel : Nat) (raw : List Char) (tokens : List Token) (index : Nat) :
    PR (Statement × Nat) :=
  match fuel with
  | 0 => .none []
  | f + 1 =>
    if expect_keyword tokens index "return" then
      match parse_expression f raw tokens (index + 1) with
      | .panic out => .panic out
      | .none out => .none (out ++ ["Expected expression after return keyword"])
      | .some out (expr, ni) =>
        if expect_syntax tokens ni ";" then
          .some out (Statement.Return expr, ni + 1)
        else .none (out ++ ["Expected semicolon after return expression"])
    else .none []

/-- Modelled from the spec: `parse_function` is referenced by
`parse_statement` but is not under `src/`.  Spec §4.5: a leading-keyword
probe returning no-match if absent, then a name, an ordered parameter list
and a body block, aborting with a diagnostic if a required piece is
missing. -/

def parse_function (fuel : Nat) (raw : List Char) (tokens : List Token) (index : Nat) :
    PR (Statement × Nat) :=
  match fuel with
  | 0 => .none []
  | f + 1 =>
    if expect_keyword tokens index "function" then
      match tokens[index + 1]? with
      | Option.none => .none ["Expected function name after function keyword"]
      | Option.some name =>
        if name.kind == TokenKind.Identifier then
          if expect_syntax tokens (index + 2) "(" then
            match parse_params f raw tokens (index + 3) [] with
            | .panic out => .panic out
            | .none out => .none out
            | .some out (parameters, ni) =>
              match parse_block f raw tokens ni with
              | .panic out2 => .panic (out ++ out2)
              | .none out2 => .none (out ++ out2)
              | .some out2 (body, nni) =>
                .some (out ++ out2) (Statement.FunctionDeclaration name parameters body, nni)
          else .none ["Expected open paren after function name"]
        else .none ["Expected function name after function keyword"]
    else .none []
termination_by structural fuel

/-- Modelled from the spec: the parameter-list loop of `parse_function`
(not under `src/`).  Identifier tokens are collected and comma tokens
skipped until the closing paren; anything else aborts with a diagnostic. -/

def parse_params (fuel : Nat) (raw : List Char) (tokens : List Token) (index : Nat)
    (parameters : List Token) : PR (List Token × Nat) :=
  match fuel with
  | 0 => .none []
  | f + 1 =>
    if expect_syntax tokens index ")" then
      .some [] (parameters, index + 1)
    else if expect_syntax tokens index "," then
      parse_params f raw tokens (index + 1) parameters
    else
      match tokens[index]? with
      | Option.none => .none ["Expected closing paren in function parameters"]
      | Option.some t =>
        if t.kind == TokenKind.Identifier then
          parse_params f raw tokens (index + 1) (parameters ++ [t])
        else .none ["Expected identifier in function parameters"]
termination_by structural fuel

/-- Modelled from the spec: `parse_local` is referenced by `parse_statement`
but is not under `src/`.  Spec §4.5: a leading-keyword probe returning
no-match if absent, then a name, an `=` syntax token, one expression and the
statement terminator, aborting with a diagnostic if a required piece is
missing. -/

def parse_local (fuel : Nat) (raw : List Char) (tokens : List Token) (index : Nat) :
    PR (Statement × Nat) :=
  match fuel with
  | 0 => .none []
  | f + 1 =>
    if expect_keyword tokens index "local" then
      match tokens[index + 1]? with
      | Option.none => .none ["Expected variable name after local keyword"]
      | Option.some name =>
        if name.kind == TokenKind.Identifier then
          if expect_syntax tokens (index + 2) "=" then
            match parse_expression f raw tokens (index + 3) with
            | .panic out => .panic out
            | .none out => .none (out ++ ["Expected expression in local declaration"])
            | .some out (expr, ni) =>
              if expect_syntax tokens ni ";" then
                .some out (Statement.Local name expr, ni + 1)
              else .none (out ++ ["Expected semicolon in local declaration"])
          else .none ["Expected equals sign after local variable name"]
        else .none ["Expected variable name after local keyword"]
    else .none []

/-- Modelled from the spec: the body-block loop (not under `src/`).  Spec
§4.5: "Body blocks are ordered sequences of statements terminated by a
closing syntax token, parsed by recursively invoking the statement
dispatcher."  Returns the statements and the index just past the closing
token. -/

def parse_block (fuel : Nat) (raw : List Char) (tokens : List Token) (index : Nat) :
    PR (List Statement × Nat) :=
  match fuel with
  | 0 => .none []
  | f + 1 =>
    if expect_syntax tokens index "end" then
      .some [] ([], index + 1)
    else
      match parse_statement f raw tokens index with
      | .panic out => .panic out
      | .none out => .none (out ++ ["Expected closing token of block"])
      | .some out (stmt, ni) =>
        match parse_block f raw tokens ni with
        | .panic out2 => .panic (out ++ out2)
        | .none out2 => .none (out ++ out2)
        | .some out2 (rest, nni) => .some (out ++ out2) (stmt :: rest, nni)
termination_by structural fuel

/-- `parse_statement` of `parse.rs` (lines 91-107): tries the statement-form
parsers in the fixed order `parse_if`, `parse_expression_statement`,
`parse_return`, `parse_function`, `parse_local`; the first success wins. -/

def parse_statement (fuel : Nat) (raw : List Char) (tokens : List Token) (index : Nat) :
    PR (Statement × Nat) :=
  match fuel with
  | 0 => .none []
  | f + 1 =>
    PR.orElse (parse_if f raw tokens index) fun _ =>
    PR.orElse (parse_expression_statement f raw tokens index) fun _ =>
    PR.orElse (parse_return f raw tokens index) fun _ =>
    PR.orElse (parse_function f raw tokens index) fun _ =>
    parse_local f raw tokens index
termination_by structural fuel

end

/-- The fuel supplied to the statement dispatcher by the top-level driver.
Each unit of fuel pays for one nested call; every recursion either descends
past consumed tokens or iterates past a parsed item, so a linear budget
amply covers any call chain on the given token stream. -/
def innerFuel (tokens : List Token) : Nat := 4 * tokens.length + 4

/-- The `while index < ntokens` loop of `parse` (`parse.rs` lines 109-125):
repeatedly invokes the statement dispatcher, accumulating statements; on
dispatcher no-match it returns `Err` with a located message at the unparsed
token.  The loop fuel is never exhausted when started by `parse`, because
every successful dispatch consumes at least one token. -/
def parse_loop (fuel : Nat) (raw : List Char) (tokens : List Token) (index : Nat)
    (ast : List Statement) : PR (Except String Ast) :=
  match fuel with
  | 0 => .panic []
  | f + 1 =>
    if h : index < tokens.length then
      match parse_statement (innerFuel tokens) raw tokens index with
      | .panic out => .panic out
      | .some out (stmt, next_index) =>
        PR.withOut out (parse_loop f raw tokens next_index (ast ++ [stmt]))
      | .none out => .some out (Except.error (tokens[index].loc.debug raw invalidTokenMsg))
    else .some [] (Except.ok ast)

/-- `parse` of `parse.rs` (lines 109-125), the sole public entry point. -/
def parse (raw : List Char) (tokens : List Token) : PR (Except String Ast) :=
  parse_loop (tokens.length + 1) raw tokens 0 []

/-- An Identifier token with the given text (sample locations for tests). -/
def tokId (s : String) (c : Nat) : Token :=
  { kind := TokenKind.Identifier, value := s, loc := { line := 1, col := c } }

/-- A Syntax token with the given text. -/
def tokSyn (s : String) (c : Nat) : Token :=
  { kind := TokenKind.Syntax, value := s, loc := { line := 1, col := c } }

/-- An Operator token with the given text. -/
def tokOp (s : String) (c : Nat) : Token :=
  { kind := TokenKind.Operator, value := s, loc := { line := 1, col := c } }


/-- Progress property of `parse_expression`: a success starts in bounds and
advances the index. -/
def ExprProgress (fuel : Nat) : Prop :=
  ∀ raw tokens index out e j,
    parse_expression fuel raw tokens index = PR.some out (e, j) →
    index < tokens.length ∧ index < j

/-- Progress property of the argument loop: a success never moves the index
backwards and ends on the closing paren, which is in bounds. -/
def ArgsProgress (fuel : Nat) : Prop :=
  ∀ raw tokens index args out as j,
    parse_args fuel raw tokens index args = PR.some out (as, j) →
    index ≤ j ∧ j < tokens.length

/-- Progress property of `parse_expression_statement`. -/
def ExprStmtProgress (fuel : Nat) : Prop :=
  ∀ raw tokens index out s j,
    parse_expression_statement fuel raw tokens index = PR.some out (s, j) →
    index < tokens.length ∧ index < j

/-- Progress property of `parse_if`. -/
def IfProgress (fuel : Nat) : Prop :=
  ∀ raw tokens index out s j,
    parse_if fuel raw tokens index = PR.some out (s, j) →
    index < tokens.length ∧ index < j

/-- Progress property of `parse_return`. -/
def ReturnProgress (fuel : Nat) : Prop :=
  ∀ raw tokens index out s j,
    parse_return fuel raw tokens index = PR.some out (s, j) →
    index < tokens.length ∧ index < j

/-- Progress property of `parse_function`. -/
def FunctionProgress (fuel : Nat) : Prop :=
  ∀ raw tokens index out s j,
    parse_function fuel raw tokens index = PR.some out (s, j) →
    index < tokens.length ∧ index < j

/-- Progress property of the parameter-list loop. -/
def ParamsProgress (fuel : Nat) : Prop :=
  ∀ raw tokens index ps out qs j,
    parse_params fuel raw tokens index ps = PR.some out (qs, j) →
    index < j

/-- Progress property of the body-block loop. -/
def BlockProgress (fuel : Nat) : Prop :=
  ∀ raw tokens index out ss j,
    parse_block fuel raw tokens index = PR.some out (ss, j) →
    index < tokens.length ∧ index < j

/-- Progress property of `parse_local`. -/
def LocalProgress (fuel : Nat) : Prop :=
  ∀ raw tokens index out s j,
    parse_local fuel raw tokens index = PR.some out (s, j) →
    index < tokens.length ∧ index < j

/-- Progress property of the statement dispatcher. -/
def StmtProgress (fuel : Nat) : Prop :=
  ∀ raw tokens index out s j,
    parse_statement fuel raw tokens index = PR.some out (s, j) →
    index < tokens.length ∧ index < j


/-- One trial of the statement dispatcher exactly as the top-level driver
invokes it (at the driver's fuel). -/
def dispatch (raw : List Char) (tokens : List Token) (index : Nat) : PR (Statement × Nat) :=
  parse_statement (innerFuel tokens) raw tokens index

/-- "Repeatedly applying the statement dispatcher": starting at `index`,
every step matches, each step resuming at the previous step's next index,
until the token stream is exhausted; the produced statements are listed in
order. -/
inductive DispatchRun (raw : List Char) (tokens : List Token) : Nat → List Statement → Prop where
  | done : ∀ index, tokens.length ≤ index → DispatchRun raw tokens index []
  | step : ∀ index out s j rest,
      dispatch raw tokens index = PR.some out (s, j) →
      DispatchRun raw tokens j rest →
      DispatchRun raw tokens index (s :: rest)

/-- The indices the driver can reach from the start of the stream by
successful dispatcher steps. -/
inductive DispatchReach (raw : List Char) (tokens : List Token) : Nat → Prop where
  | start : DispatchReach raw tokens 0
  | step : ∀ index out s j, DispatchReach raw tokens index →
      dispatch raw tokens index = PR.some out (s, j) →
      DispatchReach raw tokens j


/-- C9: for the token sequence Identifier "f", Syntax "(", Syntax ")",
Syntax ";", the parse succeeds and yields exactly one statement:
Expression(FunctionCall) with name "f" and an empty argument list
(for any source buffer and any token locations). -/
theorem claimC9 : ∀ (raw : List Char) (l1 l2 l3 l4 : Location),
    parse raw [⟨TokenKind.Identifier, "f", l1⟩, ⟨TokenKind.Syntax, "(", l2⟩,
      ⟨TokenKind.Syntax, ")", l3⟩, ⟨TokenKind.Syntax, ";", l4⟩] =
    PR.some [] (Except.ok [Statement.Expression
      (Expression.FunctionCall ⟨TokenKind.Identifier, "f", l1⟩ [])]) :=
  fun _ _ _ _ _ => rfl

/-- C10: for the token sequence Identifier "a", Operator "+",
Identifier "b", Syntax ";", the parse succeeds and yields exactly one
statement: Expression(BinaryOperation) with operator token "+", left
Literal(Identifier("a")) and right Literal(Identifier("b")). -/
theorem claimC10 : ∀ (raw : List Char) (l1 l2 l3 l4 : Location),
    parse raw [⟨TokenKind.Identifier, "a", l1⟩, ⟨TokenKind.Operator, "+", l2⟩,
      ⟨TokenKind.Identifier, "b", l3⟩, ⟨TokenKind.Syntax, ";", l4⟩] =
    PR.some [] (Except.ok [Statement.Expression
      (Expression.BinaryOperation ⟨TokenKind.Operator, "+", l2⟩
        (Expression.Literal (Literal.Identifier ⟨TokenKind.Identifier, "a", l1⟩))
        (Expression.Literal (Literal.Identifier ⟨TokenKind.Identifier, "b", l3⟩)))]) :=
  fun _ _ _ _ _ => rfl

/-- C1 (code bug): for the token sequence of `f(a);` the claim expects a
successful parse into a one-argument FunctionCall, but the argument loop of
`parse_expression` requires a comma while the argument list is still empty,
so the parse prints the expected-comma diagnostic at the token `a` and
returns `Err` with the located invalid-token message at the token `f`. -/
theorem claimC1 : ∀ (raw : List Char) (l1 l2 l3 l4 l5 : Location),
    parse raw [⟨TokenKind.Identifier, "f", l1⟩, ⟨TokenKind.Syntax, "(", l2⟩,
      ⟨TokenKind.Identifier, "a", l3⟩, ⟨TokenKind.Syntax, ")", l4⟩,
      ⟨TokenKind.Syntax, ";", l5⟩] =
    PR.some [l3.debug raw commaMsg] (Except.error (l1.debug raw invalidTokenMsg)) :=
  fun _ _ _ _ _ _ => rfl

/-- C3 (code bug): for the single token Identifier "a" (no trailing
semicolon, end of stream), `parse_expression_statement` evaluates
`tokens[next_index]` with `next_index` equal to the stream length while
rendering the expected-semicolon diagnostic, so the Rust code panics with an
index-out-of-bounds instead of returning the expected error. -/
theorem claimC3 : ∀ (raw : List Char) (l1 : Location),
    parse raw [⟨TokenKind.Identifier, "a", l1⟩] = PR.panic [] :=
  fun _ _ => rfl

/-- C4 (code bug): when `parse_expression` has consumed a literal and an
Operator and the position after the operator is past the end of the stream,
the Rust code evaluates `tokens[next_index]` inside its own
`next_index >= tokens.len()` guard while rendering the right-hand-side
diagnostic, so it panics instead of printing a diagnostic and returning
None (for every positive fuel). -/
theorem claimC4 : ∀ (raw : List Char) (fuel : Nat) (l1 l2 : Location),
    parse_expression (fuel + 1) raw
      [⟨TokenKind.Identifier, "a", l1⟩, ⟨TokenKind.Operator, "+", l2⟩] 0 =
    PR.panic [] :=
  fun _ _ _ _ => rfl

/-- C8: the lookahead utilities `expect_keyword`, `expect_syntax` and
`expect_identifier` return `false` whenever the index is out of range, and
for an in-range index they return `true` exactly when the token there has
the required kind and (for keyword and syntax) the expected value.  They
are total Lean functions over an immutable list, so they cannot fail or
modify the token sequence. -/
theorem claimC8 : ∀ (tokens : List Token) (index : Nat) (value : String),
    (tokens.length ≤ index →
      expect_keyword tokens index value = false ∧
      expect_syntax tokens index value = false ∧
      expect_identifier tokens index = false) ∧
    (∀ h : index < tokens.length,
      (expect_keyword tokens index value = true ↔
        (tokens[index].kind = TokenKind.Keyword ∧ tokens[index].value = value)) ∧
      ( expect_syntax tokens index value = true ↔
        (tokens[index].kind = TokenKind.Syntax ∧ tokens[index].value = value)) ∧
      (expect_identifier tokens index = true ↔
        tokens[index].kind = TokenKind.Identifier)) := by
  intro tokens index value
  constructor
  · intro hle
    have hnot : ¬ index < tokens.length := by omega
    refine ⟨?_, ?_, ?_⟩ <;> simp [expect_keyword, expect_syntax, expect_identifier, hnot]
  · intro h
    refine ⟨?_, ?_, ?_⟩ <;>
      simp [expect_keyword, expect_syntax, expect_identifier, h]

/-- C8 witness: the characterisation evaluated at concrete inputs (an
out-of-range probe on the empty stream, and an in-range syntax probe). -/
theorem claimC8_witness :
    (expect_keyword [] 0 "if" = false ∧
      expect_syntax [] 0 ";" = false ∧
      expect_identifier [] 0 = false) ∧
    ( expect_syntax [tokSyn ";" 1] 0 ";" = true ↔
      ((tokSyn ";" 1).kind = TokenKind.Syntax ∧ (tokSyn ";" 1).value = ";")) := by
  constructor
  · exact (claimC8 [] 0 "if").1 (by decide) |>.imp id
      (fun h => ⟨((claimC8 [] 0 ";").1 (by decide)).2.1, h.2⟩)
  · exact (((claimC8 [tokSyn ";" 1] 0 ";").2 (by decide)).2).1

theorem getElem?_some_lt {α : Type} {l : List α} {n : Nat} {t : α}
    (h : l[n]? = Option.some t) : n < l.length := by
  by_contra hn
  rw [List.getElem?_eq_none (by omega)] at h
  exact Option.noConfusion h

theorem expect_syntax_lt {tokens : List Token} {index : Nat} {v : String}
    (h : expect_syntax tokens index v = true) : index < tokens.length := by
  by_contra hn
  simp [ expect_syntax, hn] at h

theorem expect_keyword_lt {tokens : List Token} {index : Nat} {v : String}
    (h : expect_keyword tokens index v = true) : index < tokens.length := by
  by_contra hn
  simp [expect_keyword, hn] at h

theorem PR.withOut_eq_some {α : Type} {out o : List String} {x : PR α} {a : α}
    (h : PR.withOut out x = PR.some o a) :
    ∃ o', x = PR.some o' a ∧ o = out ++ o' := by
  cases x with
  | panic o' => exact absurd h (by simp [PR.withOut])
  | none o' => exact absurd h (by simp [PR.withOut])
  | some o' a' =>
    simp only [PR.withOut, PR.some.injEq] at h
    exact ⟨o', by rw [h.2], h.1.symm⟩

theorem PR.orElse_eq_some {α : Type} {a : PR α} {b : Unit → PR α} {o : List String} {r : α}
    (h : PR.orElse a b = PR.some o r) :
    a = PR.some o r ∨ ∃ o1 o2, a = PR.none o1 ∧ b () = PR.some o2 r ∧ o = o1 ++ o2 := by
  cases ha : a <;> rw [ha] at h <;> simp [PR.orElse] at h
  case none o1 =>
    obtain ⟨o2, hb, ho⟩ := PR.withOut_eq_some h
    exact Or.inr ⟨o1, o2, rfl, hb, ho⟩
  case some o' r' =>
    exact Or.inl (by rw [h.1, h.2])

theorem exprProgress_succ (f : Nat) (ihA : ArgsProgress f) : ExprProgress (f + 1) := by
  intro raw tokens index out e j h
  simp only [parse_expression] at h
  cases htok : tokens[index]? with
  | none => rw [htok] at h; exact absurd h (by simp)
  | some t =>
    rw [htok] at h
    refine ⟨getElem?_some_lt htok, ?_⟩
    repeat' split at h
    all_goals cases h
    all_goals try omega
    rename_i o2 args close heq
    have := ihA _ _ _ _ _ _ _ heq
    omega

theorem argsProgress_succ (f : Nat) (ihE : ExprProgress f) (ihA : ArgsProgress f) :
    ArgsProgress (f + 1) := by
  intro raw tokens index args out as j h
  simp only [parse_args] at h
  split at h
  case isTrue hclose =>
    cases h
    exact ⟨Nat.le_refl _, expect_syntax_lt hclose⟩
  case isFalse hnc =>
    split at h
    · cases h
    · cases h
    · rename_i o1 ni heq
      have hni : index ≤ ni := by
        split at heq
        · split at heq
          · cases heq; omega
          · split at heq <;> cases heq
        · cases heq; omega
      split at h
      · cases h
      · rename_i o2 arg nni hexpr
        obtain ⟨o', hrec, -⟩ := PR.withOut_eq_some h
        have h1 := ihE _ _ _ _ _ _ hexpr
        have h2 := ihA _ _ _ _ _ _ _ hrec
        omega
      · split at h <;> cases h

theorem exprStmtProgress_succ (f : Nat) (ihE : ExprProgress f) :
    ExprStmtProgress (f + 1) := by
  intro raw tokens index out s j h
  simp only [parse_expression_statement] at h
  split at h
  · cases h
  · cases h
  · rename_i o1 expr ni hexpr
    have h1 := ihE _ _ _ _ _ _ hexpr
    split at h
    · cases h; omega
    · split at h <;> cases h

theorem ifProgress_succ (f : Nat) (ihE : ExprProgress f) (ihB : BlockProgress f) :
    IfProgress (f + 1) := by
  intro raw tokens index out s j h
  simp only [parse_if] at h
  split at h
  case isFalse => cases h
  case isTrue hkw =>
    refine ⟨expect_keyword_lt hkw, ?_⟩
    split at h
    · cases h
    · cases h
    · rename_i o1 test ni hexpr
      have h1 := ihE _ _ _ _ _ _ hexpr
      split at h
      · cases h
      · cases h
      · rename_i o2 body nni hblk
        have h2 := ihB _ _ _ _ _ _ hblk
        cases h; omega

theorem returnProgress_succ (f : Nat) (ihE : ExprProgress f) :
    ReturnProgress (f + 1) := by
  intro raw tokens index out s j h
  simp only [parse_return] at h
  split at h
  case isFalse => cases h
  case isTrue hkw =>
    refine ⟨expect_keyword_lt hkw, ?_⟩
    split at h
    · cases h
    · cases h
    · rename_i o1 expr ni hexpr
      have h1 := ihE _ _ _ _ _ _ hexpr
      split at h
      · cases h; omega
      · cases h

theorem paramsProgress_succ (f : Nat) (ihP : ParamsProgress f) :
    ParamsProgress (f + 1) := by
  intro raw tokens index ps out qs j h
  simp only [parse_params] at h
  split at h
  · cases h; omega
  · split at h
    · have h1 := ihP _ _ _ _ _ _ _ h
      omega
    · split at h
      · cases h
      · split at h
        · have h1 := ihP _ _ _ _ _ _ _ h
          omega
        · cases h

theorem functionProgress_succ (f : Nat) (ihP : ParamsProgress f) (ihB : BlockProgress f) :
    FunctionProgress (f + 1) := by
  intro raw tokens index out s j h
  simp only [parse_function] at h
  split at h
  case isFalse => cases h
  case isTrue hkw =>
    refine ⟨expect_keyword_lt hkw, ?_⟩
    split at h
    · cases h
    · split at h
      · split at h
        · split at h
          · cases h
          · cases h
          · rename_i o1 ps ni hps
            have h1 := ihP _ _ _ _ _ _ _ hps
            split at h
            · cases h
            · cases h
            · rename_i o2 body nni hblk
              have h2 := ihB _ _ _ _ _ _ hblk
              cases h; omega
        · cases h
      · cases h

theorem localProgress_succ (f : Nat) (ihE : ExprProgress f) :
    LocalProgress (f + 1) := by
  intro raw tokens index out s j h
  simp only [parse_local] at h
  split at h
  case isFalse => cases h
  case isTrue hkw =>
    refine ⟨expect_keyword_lt hkw, ?_⟩
    split at h
    · cases h
    · split at h
      · split at h
        · split at h
          · cases h
          · cases h
          · rename_i o1 expr ni hexpr
            have h1 := ihE _ _ _ _ _ _ hexpr
            split at h
            · cases h; omega
            · cases h
        · cases h
      · cases h

theorem blockProgress_succ (f : Nat) (ihS : StmtProgress f) (ihB : BlockProgress f) :
    BlockProgress (f + 1) := by
  intro raw tokens index out ss j h
  simp only [parse_block] at h
  split at h
  case isTrue hend =>
    cases h
    exact ⟨expect_syntax_lt hend, Nat.lt_succ_self _⟩
  case isFalse hne =>
    split at h
    · cases h
    · cases h
    · rename_i o1 stmt ni hstmt
      have h1 := ihS _ _ _ _ _ _ hstmt
      split at h
      · cases h
      · cases h
      · rename_i o2 rest nni hblk
        have h2 := ihB _ _ _ _ _ _ hblk
        cases h
        omega

theorem stmtProgress_succ (f : Nat) (ihI : IfProgress f) (ihES : ExprStmtProgress f)
    (ihR : ReturnProgress f) (ihF : FunctionProgress f) (ihL : LocalProgress f) :
    StmtProgress (f + 1) := by
  intro raw tokens index out s j h
  simp only [parse_statement] at h
  rcases PR.orElse_eq_some h with h1 | ⟨o1, o2, ha, h2, ho⟩
  · exact ihI _ _ _ _ _ _ h1
  rcases PR.orElse_eq_some h2 with h1 | ⟨o3, o4, hb, h3, ho2⟩
  · exact ihES _ _ _ _ _ _ h1
  rcases PR.orElse_eq_some h3 with h1 | ⟨o5, o6, hc, h4, ho3⟩
  · exact ihR _ _ _ _ _ _ h1
  rcases PR.orElse_eq_some h4 with h1 | ⟨o7, o8, hd, h5, ho4⟩
  · exact ihF _ _ _ _ _ _ h1
  exact ihL _ _ _ _ _ _ h5

/-- All progress properties hold at every fuel, by mutual induction. -/
theorem progress_all : ∀ fuel : Nat,
    ExprProgress fuel ∧ ArgsProgress fuel ∧ ExprStmtProgress fuel ∧ IfProgress fuel ∧
    ReturnProgress fuel ∧ FunctionProgress fuel ∧ ParamsProgress fuel ∧
    LocalProgress fuel ∧ BlockProgress fuel ∧ StmtProgress fuel := by
  intro fuel
  induction fuel with
  | zero =>
    refine ⟨?_, ?_, ?_, ?_, ?_, ?_, ?_, ?_, ?_, ?_⟩ <;>
      · simp only [ExprProgress, ArgsProgress, ExprStmtProgress, IfProgress, ReturnProgress,
          FunctionProgress, ParamsProgress, LocalProgress, BlockProgress, StmtProgress]
        intros
        simp_all [parse_expression, parse_args, parse_expression_statement, parse_if,
          parse_return, parse_function, parse_params, parse_local, parse_block,
          parse_statement]
  | succ f ih =>
    obtain ⟨ihE, ihA, ihES, ihI, ihR, ihF, ihP, ihL, ihB, ihS⟩ := ih
    exact ⟨exprProgress_succ f ihA, argsProgress_succ f ihE ihA, exprStmtProgress_succ f ihE,
      ifProgress_succ f ihE ihB, returnProgress_succ f ihE,
      functionProgress_succ f ihP ihB, paramsProgress_succ f ihP,
      localProgress_succ f ihE, blockProgress_succ f ihS ihB,
      stmtProgress_succ f ihI ihES ihR ihF ihL⟩

/-- C6: whenever `parse_expression` or `parse_expression_statement` returns
a success `(node, next_index)`, the next index is strictly greater than the
start index (for every fuel); in particular a literal-only expression still
consumes at least one token. -/
theorem claimC6 : ∀ (fuel : Nat) (raw : List Char) (tokens : List Token) (index : Nat)
    (out : List String) (j : Nat),
    (∀ e : Expression,
      parse_expression fuel raw tokens index = PR.some out (e, j) → index < j) ∧
    (∀ s : Statement,
      parse_expression_statement fuel raw tokens index = PR.some out (s, j) → index < j) := by
  intro fuel raw tokens index out j
  constructor
  · intro e h
    exact ((progress_all fuel).1 _ _ _ _ _ _ h).2
  · intro s h
    exact ((progress_all fuel).2.2.1 _ _ _ _ _ _ h).2

/-- C6 witness: the literal-only expression statement `a;` starting at
index 0 succeeds and consumes tokens up to index 2 > 0 (and the bare
expression consumes one token). -/
theorem claimC6_witness :
    (0:Nat) < 1 ∧ (0:Nat) < 2 := by
  constructor
  · exact (claimC6 5 [] [tokId "a" 1, tokSyn ";" 2] 0 [] 1).1
      (Expression.Literal (Literal.Identifier (tokId "a" 1))) rfl
  · exact (claimC6 5 [] [tokId "a" 1, tokSyn ";" 2] 0 [] 2).2
      (Statement.Expression (Expression.Literal (Literal.Identifier (tokId "a" 1)))) rfl

/-- The argument loop only ever extends its accumulator: a success returns
the accumulated list followed by newly parsed arguments. -/
theorem parse_args_acc : ∀ (fuel : Nat) (raw : List Char) (tokens : List Token) (index : Nat)
    (args : List Expression) (out : List String) (as : List Expression) (j : Nat),
    parse_args fuel raw tokens index args = PR.some out (as, j) →
    ∃ more, as = args ++ more := by
  intro fuel
  induction fuel with
  | zero =>
    intro raw tokens index args out as j h
    simp [parse_args] at h
  | succ f ih =>
    intro raw tokens index args out as j h
    simp only [parse_args] at h
    split at h
    · cases h; exact ⟨[], (List.append_nil args).symm⟩
    · split at h
      · cases h
      · cases h
      · rename_i o1 ni heq
        split at h
        · cases h
        · rename_i o2 arg nni hexpr
          obtain ⟨o', hrec, -⟩ := PR.withOut_eq_some h
          obtain ⟨more, hmore⟩ := ih _ _ _ _ _ _ _ hrec
          exact ⟨arg :: more, by simpa [List.append_assoc] using hmore⟩
        · split at h <;> cases h

/-- When the argument loop is entered with an empty accumulator and returns
a non-empty argument list, the token at its start position passed the comma
check. -/
theorem parse_args_first_comma (f : Nat) (raw : List Char) (tokens : List Token)
    (index : Nat) (out : List String) (as : List Expression) (j : Nat)
    (h : parse_args f raw tokens index [] = PR.some out (as, j)) (hne : as ≠ []) :
    expect_syntax tokens index "," = true := by
  cases f with
  | zero => simp [parse_args] at h
  | succ f =>
    simp only [parse_args] at h
    split at h
    · cases h; exact absurd rfl hne
    · split at h
      · cases h
      · cases h
      · rename_i o1 ni heq
        simp only [List.isEmpty_nil, if_true] at heq
        split at heq
        · assumption
        · split at heq <;> cases heq

theorem expect_syntax_spec {tokens : List Token} {i : Nat} {v : String}
    (h : expect_syntax tokens i v = true) :
    ∃ hlt : i < tokens.length,
      (tokens.get ⟨i, hlt⟩).kind = TokenKind.Syntax ∧ (tokens.get ⟨i, hlt⟩).value = v := by
  have hlt := expect_syntax_lt h
  refine ⟨hlt, ?_⟩
  simp only [ expect_syntax, hlt, dif_pos, Bool.and_eq_true, beq_iff_eq] at h
  simpa [List.get_eq_getElem] using h

/-- C7: whenever `parse_expression` succeeds with a FunctionCall whose
argument list is non-empty, the token at start index + 2 (immediately after
the open paren) is the Syntax token "," — the only concrete syntax the
parser accepts for a non-empty argument list puts a comma before the first
argument. -/
theorem claimC7 : ∀ (fuel : Nat) (raw : List Char) (tokens : List Token) (index : Nat)
    (out : List String) (name : Token) (args : List Expression) (j : Nat),
    parse_expression fuel raw tokens index =
      PR.some out (Expression.FunctionCall name args, j) →
    args ≠ [] →
    ∃ hlt : index + 2 < tokens.length,
      (tokens.get ⟨index + 2, hlt⟩).kind = TokenKind.Syntax ∧
      (tokens.get ⟨index + 2, hlt⟩).value = "," := by
  intro fuel raw tokens index out name args j h hne
  cases fuel with
  | zero => simp [parse_expression] at h
  | succ f =>
    simp only [parse_expression] at h
    cases htok : tokens[index]? with
    | none => rw [htok] at h; cases h
    | some t =>
      rw [htok] at h
      repeat' split at h
      all_goals cases h
      · rename_i heq
        exact expect_syntax_spec (parse_args_first_comma _ _ _ _ _ _ _ heq hne)
      all_goals rename_i hlit
      all_goals split at hlit <;> simp at hlit

/-- C7 witness: the accepted sequence `f(,a)` yields a one-argument
FunctionCall, and the token at start index + 2 is indeed the comma. -/
theorem claimC7_witness :
    ∃ hlt : 0 + 2 <
        [tokId "f" 1, tokSyn "(" 2, tokSyn "," 3, tokId "a" 4, tokSyn ")" 5].length,
      (([tokId "f" 1, tokSyn "(" 2, tokSyn "," 3, tokId "a" 4, tokSyn ")" 5].get
        ⟨0 + 2, hlt⟩).kind = TokenKind.Syntax) ∧
      (([tokId "f" 1, tokSyn "(" 2, tokSyn "," 3, tokId "a" 4, tokSyn ")" 5].get
        ⟨0 + 2, hlt⟩).value = ",") :=
  claimC7 6 [] [tokId "f" 1, tokSyn "(" 2, tokSyn "," 3, tokId "a" 4, tokSyn ")" 5] 0 []
    (tokId "f" 1) [Expression.Literal (Literal.Identifier (tokId "a" 4))] 5 rfl (by simp)

theorem expect_syntax_oob {tokens : List Token} {index : Nat} {v : String}
    (h : tokens[index]? = Option.none) : expect_syntax tokens index v = false := by
  have : ¬ index < tokens.length := by
    intro hlt
    rw [List.getElem?_eq_getElem hlt] at h
    exact Option.noConfusion h
  simp [ expect_syntax, this]

/-- C2 counterexample: the claim says that when the argument list is still
empty and the required comma is absent, the function-call branch returns
None with a diagnostic.  But for `f(` with the stream ending right after
the open paren, the comma check fails at an out-of-range position and the
diagnostic lookup `tokens[next_index]` panics: the result is `PR.panic`,
which is a different constructor from every `PR.none`. -/
theorem claimC2_counterexample :
    parse_expression 2 [] [tokId "f" 1, tokSyn "(" 2] 0 = PR.panic [] := rfl

/-- C2 (amended): in `parse_expression`'s function-call branch, a comma is
required at the current position exactly when the accumulated argument list
is still empty — if absent there with a token present the loop prints a
diagnostic and returns None, while past the end of the stream the
diagnostic lookup itself panics; a comma is never required between later
arguments (with a non-empty accumulator the loop proceeds directly to the
next argument expression); and an empty argument list is produced exactly
when the token at the loop's start position (immediately after "(") is
")". -/
theorem claimC2 : ∀ (f : Nat) (raw : List Char) (tokens : List Token) (index : Nat)
    (args : List Expression),
    (∀ t : Token, args = [] → expect_syntax tokens index ")" = false →
      expect_syntax tokens index "," = false → tokens[index]? = Option.some t →
      parse_args (f + 1) raw tokens index args =
        PR.none [t.loc.debug raw commaMsg]) ∧
    (args = [] → tokens[index]? = Option.none →
      parse_args (f + 1) raw tokens index args = PR.panic []) ∧
    (args ≠ [] → expect_syntax tokens index ")" = false →
      parse_args (f + 1) raw tokens index args =
        (match parse_expression f raw tokens index with
         | PR.panic out => PR.panic out
         | PR.some out (arg, ni) =>
           PR.withOut out (parse_args f raw tokens ni (args ++ [arg]))
         | PR.none out =>
           match tokens[index]? with
           | Option.none => PR.panic out
           | Option.some t => PR.none (out ++ [t.loc.debug raw argExprMsg]))) ∧
    (args = [] → expect_syntax tokens index ")" = true →
      parse_args (f + 1) raw tokens index args = PR.some [] ([], index)) ∧
    (∀ (out : List String) (j : Nat),
      parse_args (f + 1) raw tokens index [] = PR.some out ([], j) →
      expect_syntax tokens index ")" = true ∧ j = index ∧ out = []) := by
  intro f raw tokens index args
  refine ⟨?_, ?_, ?_, ?_, ?_⟩
  · intro t hargs hclose hcomma htok
    subst hargs
    simp only [parse_args, hclose, htok, hcomma, List.isEmpty_nil, if_true, if_false,
      Bool.false_eq_true, Bool.true_eq_false]
  · intro hargs htok
    subst hargs
    have hclose := expect_syntax_oob (v := ")") htok
    have hcomma := expect_syntax_oob (v := ",") htok
    simp only [parse_args, hclose, htok, hcomma, List.isEmpty_nil, if_true, if_false,
      Bool.false_eq_true, Bool.true_eq_false]
  · intro hne hclose
    have hempty : args.isEmpty = false := by
      cases args with
      | nil => exact absurd rfl hne
      | cons a as => rfl
    simp only [parse_args, hclose, hempty, Bool.false_eq_true, if_false]
  · intro hargs hclose
    subst hargs
    simp only [parse_args, hclose, if_true]
  · intro out j h
    simp only [parse_args] at h
    split at h
    case isTrue hclose => cases h; exact ⟨hclose, rfl, rfl⟩
    case isFalse hnc =>
      split at h
      · cases h
      · cases h
      · rename_i o1 ni heq
        split at h
        · cases h
        · rename_i o2 arg nni hexpr
          obtain ⟨o', hrec, -⟩ := PR.withOut_eq_some h
          obtain ⟨more, hmore⟩ := parse_args_acc _ _ _ _ _ _ _ _ hrec
          exact absurd hmore (by simp)
        · split at h <;> cases h

/-- C2 witness: each part of the amended claim evaluated at a concrete
input — missing comma with a token present (diagnostic + None), missing
comma at end of stream (panic), a later argument parsed with no comma
check, and the empty-argument case exactly at an immediate ")". -/
theorem claimC2_witness :
    (parse_args 1 [] [tokId "x" 1] 0 [] =
      PR.none [(tokId "x" 1).loc.debug [] commaMsg]) ∧
    (parse_args 1 [] [] 0 [] = PR.panic []) ∧
    (parse_args 1 [] [tokId "b" 1] 0 [Expression.Literal (Literal.Identifier (tokId "z" 9))] =
      PR.none [(tokId "b" 1).loc.debug [] argExprMsg]) ∧
    (parse_args 1 [] [tokSyn ")" 1] 0 [] = PR.some [] ([], 0)) ∧
    ( expect_syntax [tokSyn ")" 1] 0 ")" = true ∧ 0 = 0 ∧ ([] : List String) = []) :=
  ⟨(claimC2 0 [] [tokId "x" 1] 0 []).1 (tokId "x" 1) rfl rfl rfl rfl,
   (claimC2 0 [] [] 0 []).2.1 rfl rfl,
   (claimC2 0 [] [tokId "b" 1] 0
     [Expression.Literal (Literal.Identifier (tokId "z" 9))]).2.2.1 (by simp) rfl,
   (claimC2 0 [] [tokSyn ")" 1] 0 []).2.2.2.1 rfl rfl,
   (claimC2 0 [] [tokSyn ")" 1] 0 []).2.2.2.2 [] 0 rfl⟩

theorem PR.withOut_nil {α : Type} (x : PR α) : PR.withOut [] x = x := by
  cases x <;> simp [PR.withOut]

theorem PR.withOut_withOut {α : Type} (a b : List String) (x : PR α) :
    PR.withOut a (PR.withOut b x) = PR.withOut (a ++ b) x := by
  cases x <;> simp [PR.withOut]

/-- A successful dispatcher trial starts in bounds and advances. -/
theorem dispatch_progress {raw : List Char} {tokens : List Token} {index : Nat}
    {out : List String} {s : Statement} {j : Nat}
    (h : dispatch raw tokens index = PR.some out (s, j)) :
    index < tokens.length ∧ index < j :=
  (progress_all (innerFuel tokens)).2.2.2.2.2.2.2.2.2 _ _ _ _ _ _ h

/-- A dispatcher run is faithfully executed by the driver loop, given
enough loop fuel. -/
theorem run_to_loop {raw : List Char} {tokens : List Token} :
    ∀ {index : Nat} {rest : List Statement}, DispatchRun raw tokens index rest →
    ∀ acc fuel, 0 < fuel → tokens.length + 1 - index ≤ fuel →
    ∃ outs, parse_loop fuel raw tokens index acc =
      PR.some outs (Except.ok (acc ++ rest)) := by
  intro index rest hrun
  induction hrun with
  | done i hle =>
    intro acc fuel hpos hfuel
    cases fuel with
    | zero => omega
    | succ g =>
      have hnot : ¬ i < tokens.length := by omega
      exact ⟨[], by simp [parse_loop, hnot]⟩
  | step i out s j rest hdisp hrun ih =>
    intro acc fuel hpos hfuel
    obtain ⟨hlt, hadv⟩ := dispatch_progress hdisp
    cases fuel with
    | zero => omega
    | succ g =>
      obtain ⟨outs, hloop⟩ := ih (acc ++ [s]) g (by omega) (by omega)
      refine ⟨out ++ outs, ?_⟩
      simp only [parse_loop, hlt, dif_pos]
      rw [show parse_statement (innerFuel tokens) raw tokens i = PR.some out (s, j) from hdisp]
      dsimp only
      rw [hloop]
      simp [PR.withOut, List.append_assoc]

/-- A successful driver loop is a dispatcher run. -/
theorem loop_to_run {raw : List Char} {tokens : List Token} :
    ∀ (fuel index : Nat) (acc : List Statement) (out : List String) (ast : Ast),
    parse_loop fuel raw tokens index acc = PR.some out (Except.ok ast) →
    ∃ rest, ast = acc ++ rest ∧ DispatchRun raw tokens index rest := by
  intro fuel
  induction fuel with
  | zero =>
    intro index acc out ast h
    simp [parse_loop] at h
  | succ g ih =>
    intro index acc out ast h
    simp only [parse_loop] at h
    split at h
    case isTrue hlt =>
      split at h
      · cases h
      · rename_i o1 stmt j hstmt
        obtain ⟨o', hrec, -⟩ := PR.withOut_eq_some h
        obtain ⟨rest', hast, hrun⟩ := ih _ _ _ _ hrec
        refine ⟨stmt :: rest', by simpa [List.append_assoc] using hast, ?_⟩
        exact DispatchRun.step _ _ _ _ _ hstmt hrun
      · cases h
    case isFalse hge =>
      cases h
      exact ⟨[], by simp, DispatchRun.done _ (by omega)⟩

/-- The driver's state at any reachable index: the whole parse equals the
remaining loop from that index, with the printed output so far prepended. -/
theorem reach_absorb {raw : List Char} {tokens : List Token} :
    ∀ {index : Nat}, DispatchReach raw tokens index →
    ∃ (O : List String) (acc : List Statement) (fuel : Nat),
      0 < fuel ∧ tokens.length + 1 - index ≤ fuel ∧
      parse raw tokens = PR.withOut O (parse_loop fuel raw tokens index acc) := by
  intro index hreach
  induction hreach with
  | start =>
    exact ⟨[], [], tokens.length + 1, by omega, by omega,
      (PR.withOut_nil _).symm⟩
  | step i out s j hreach hdisp ih =>
    obtain ⟨O, acc, fuel, hpos, hfuel, heq⟩ := ih
    obtain ⟨hlt, hadv⟩ := dispatch_progress hdisp
    cases fuel with
    | zero => omega
    | succ g =>
      refine ⟨O ++ out, acc ++ [s], g, by omega, by omega, ?_⟩
      rw [heq]
      simp only [parse_loop, hlt, dif_pos]
      rw [show parse_statement (innerFuel tokens) raw tokens i = PR.some out (s, j) from hdisp]
      dsimp only
      rw [← PR.withOut_withOut]

/-- C5: for every token sequence, `parse` returns Ok with the ordered
statement list produced by repeatedly applying the statement dispatcher
from index 0 (each step resuming at the previous step's next index)
exactly when the dispatcher matches at every step until the stream is
exhausted; and whenever the dispatcher returns None at a reachable index
before exhaustion, `parse` returns Err with the single located
invalid-token message at that unparsed token (and no partial AST: the
error carries only the message string). -/
theorem claimC5 : ∀ (raw : List Char) (tokens : List Token),
    (∀ ast : Ast,
      (∃ out, parse raw tokens = PR.some out (Except.ok ast)) ↔
      DispatchRun raw tokens 0 ast) ∧
    (∀ (index : Nat) (out : List String),
      DispatchReach raw tokens index →
      ∀ hlt : index < tokens.length,
      dispatch raw tokens index = PR.none out →
      ∃ out2, parse raw tokens = PR.some out2
        (Except.error ((tokens.get ⟨index, hlt⟩).loc.debug raw invalidTokenMsg))) := by
  intro raw tokens
  constructor
  · intro ast
    constructor
    · rintro ⟨out, h⟩
      obtain ⟨rest, hast, hrun⟩ := loop_to_run _ _ _ _ _ h
      simpa [hast] using hrun
    · intro hrun
      obtain ⟨outs, hloop⟩ := run_to_loop hrun [] (tokens.length + 1) (by omega) (by omega)
      exact ⟨outs, by simpa [parse] using hloop⟩
  · intro index out hreach hlt hnone
    obtain ⟨O, acc, fuel, hpos, hfuel, heq⟩ := reach_absorb hreach
    cases fuel with
    | zero => omega
    | succ g =>
      refine ⟨O ++ out, ?_⟩
      rw [heq]
      simp only [parse_loop, hlt, dif_pos]
      rw [show parse_statement (innerFuel tokens) raw tokens index = PR.none out from hnone]
      dsimp only
      simp [PR.withOut, List.get_eq_getElem]

/-- C5 witness: on the empty stream the dispatcher run is empty and `parse`
returns Ok []; on the stream consisting of one bare Operator token the
dispatcher returns None at the reachable index 0, and `parse` returns the
located invalid-token error at that token. -/
theorem claimC5_witness :
    (∃ out, parse [] [] = PR.some out (Except.ok [])) ∧
    (∃ out2, parse [] [tokOp "+" 1] = PR.some out2
      (Except.error (([tokOp "+" 1].get ⟨0, by decide⟩).loc.debug [] invalidTokenMsg))) :=
  ⟨((claimC5 [] []).1 []).mpr (DispatchRun.done 0 (Nat.le_refl 0)),
   (claimC5 [] [tokOp "+" 1]).2 0 [] DispatchReach.start (by decide) rfl⟩
